import Mathlib

/-!
Verification of the predicate-normalization and scan-key-derivation engine of
the StarRocks scan-preparation layer (be/src/exec/olap_scan_prepare.cpp) and of
the chunk-buffer admission counter (be/src/exec/pipeline/scan/chunk_buffer_limiter.cpp).

The definitions below are a shallow embedding of the C++ source: each Lean
definition names the source function (or the source fragment) it embeds, and
keeps the source's control flow.  Value-level collaborators that are not part
of the given sources (ColumnValueRange internals, OlapScanKeys, the min/max
intersection routine, to_olap_filter_type) are either abstracted into
parameters or modelled from the specification, as stated in their doc comments.
-/

namespace starrocks

/-- Status model: the source uses Status OK / Status EndOfFile (the explicit
"no rows" short-circuit signal) / Status RuntimeError.  Messages are dropped;
only the constructor matters for the verified properties. -/
inductive Status where
  | ok : Status
  | endOfFile : Status
  | runtimeError : Status
deriving DecidableEq

/-- SQLFilterOp constants used by get_predicate_value and the range machinery
(olap_common.h names, used directly by the source file). -/
inductive SQLFilterOp where
  | FILTER_LARGER : SQLFilterOp
  | FILTER_LARGER_OR_EQUAL : SQLFilterOp
  | FILTER_LESS : SQLFilterOp
  | FILTER_LESS_OR_EQUAL : SQLFilterOp
  | FILTER_IN : SQLFilterOp
  | FILTER_NOT_IN : SQLFilterOp
deriving DecidableEq

/-- Binary comparison opcodes (TExprOpcode) relevant to get_predicate_value. -/
inductive TExprOpcode where
  | EQ : TExprOpcode
  | NE : TExprOpcode
  | LT : TExprOpcode
  | LE : TExprOpcode
  | GT : TExprOpcode
  | GE : TExprOpcode
deriving DecidableEq

/-- Modelled from the spec: to_olap_filter_type (olap_utils.h, not among the
given sources) maps a comparison opcode, plus a flag telling whether the slot
reference was found on the right-hand side (so the comparison direction must be
reversed), to a SQLFilterOp.  Equality maps to the IN form and inequality to
the NOT-IN form independently of the direction — visible in the source at the
call sites: normalize_in_or_equal_predicate recognizes an equality conjunct by
FILTER_IN == to_olap_filter_type(op, false), and get_predicate_value passes
false for EQ and NE. -/
def to_olap_filter_type : TExprOpcode → Bool → SQLFilterOp
  | .EQ, _ => .FILTER_IN
  | .NE, _ => .FILTER_NOT_IN
  | .LT, false => .FILTER_LESS
  | .LT, true => .FILTER_LARGER
  | .LE, false => .FILTER_LESS_OR_EQUAL
  | .LE, true => .FILTER_LARGER_OR_EQUAL
  | .GT, false => .FILTER_LARGER
  | .GT, true => .FILTER_LESS
  | .GE, false => .FILTER_LARGER_OR_EQUAL
  | .GE, true => .FILTER_LESS_OR_EQUAL

/-- TimestampValue: a date part (Julian day number, as in runtime/date_value.h
where DateValue wraps a JulianDate) together with the time-of-day part.
A DateValue is represented by its Julian day number (an Int). -/
structure TimestampValue where
  date : Int
  timeOfDay : Nat
deriving DecidableEq

/-- Implicit cast TimestampValue -> DateValue: truncates the time of day. -/
def implicit_cast_to_date (ts : TimestampValue) : Int := ts.date

/-- Implicit cast DateValue -> TimestampValue: midnight of that day. -/
def implicit_cast_to_timestamp (d : Int) : TimestampValue := ⟨d, 0⟩

/-- Result of the value/operator extraction of get_predicate_value for one
binary comparison: either an (operator, value) pair was extracted (the
function returned true), or the predicate is left residual (the function
returned false), with the Status out-parameter as it stands at that point
(Status.ok when untouched, Status.endOfFile for the unsatisfiable-date case). -/
inductive DateExtract where
  | extracted (op : SQLFilterOp) (value : Int) : DateExtract
  | residual (status : Status) : DateExtract
deriving DecidableEq

/-- Embedding of the DateValue branch of get_predicate_value
(olap_scan_prepare.cpp lines 130-157): the constant operand is a
TimestampValue, the slot is a DATE column.  The timestamp is truncated to a
date; if the round trip is not the identity (nonzero time component) the
operator is rewritten: GE becomes GT, LT becomes LE, GT and LE keep the
truncated value, the IN form signals end-of-data, and the NOT-IN form fails
extraction with the status untouched. -/
def rewrite_date_predicate (op : SQLFilterOp) (ts : TimestampValue) : DateExtract :=
  let value := implicit_cast_to_date ts
  if implicit_cast_to_timestamp value ≠ ts then
    match op with
    | .FILTER_LARGER_OR_EQUAL => .extracted .FILTER_LARGER value
    | .FILTER_LESS => .extracted .FILTER_LESS_OR_EQUAL value
    | .FILTER_LARGER => .extracted .FILTER_LARGER value
    | .FILTER_LESS_OR_EQUAL => .extracted .FILTER_LESS_OR_EQUAL value
    | .FILTER_IN => .residual .endOfFile
    | .FILTER_NOT_IN => .residual .ok
  else
    .extracted op value

/-- Modelled from the spec: get_scale_factor (decimal runtime support, not
among the given sources) is the power of ten of the given precision, the
magnitude bound of a decimal of that declared precision. -/
def get_scale_factor (precision : Nat) : Int := 10 ^ precision

/-- Embedding of check_decimal_overflow (olap_scan_prepare.cpp lines 54-61)
for a decimal value type: the value is accepted when it lies strictly between
the negated and the positive scale factor of the given precision. -/
def check_decimal_overflow (precision : Nat) (value : Int) : Bool :=
  decide (-(get_scale_factor precision) < value) && decide (value < get_scale_factor precision)

/-- Decimal acceptance decision of get_predicate_value as a function of both
precisions in scope: the slot's declared precision (available through the slot
descriptor parameter of get_predicate_value) and the constant operand
expression r's declared precision.  The source consults only the operand's
precision (r type precision at line 172); the slot's precision is never read
on this path, which this embedding makes explicit by taking and ignoring it. -/
def decimal_predicate_accepted (slotPrecision operandPrecision : Nat)
    (operandIsDecimalV3 : Bool) (value : Int) : Bool :=
  if operandIsDecimalV3 then check_decimal_overflow operandPrecision value else true

/-- Embedding of the generic value branch of get_predicate_value
(olap_scan_prepare.cpp lines 169-175): the value is stored; if the constant
operand expression r is of a decimal-v3 type, the extraction succeeds exactly
when check_decimal_overflow on the precision declared by r (the operand, not
the slot) accepts it.  The Status out-parameter is never touched on this path,
so a rejected value is an ordinary residual, not an error. -/
def extract_decimal_value (operandIsDecimalV3 : Bool) (operandPrecision : Nat) (value : Int) :
    Option Int × Status :=
  if operandIsDecimalV3 then
    if check_decimal_overflow operandPrecision value then (some value, .ok) else (none, .ok)
  else
    (some value, .ok)

/-- One TCondition produced by ColumnValueRange to_olap_filter; its fields are
irrelevant to the verified properties, only its identity is tracked. -/
structure TCondition where
  tag : Nat
deriving DecidableEq

/-- View of one entry of column_value_ranges as consumed by
build_olap_filters: the TCondition list appended by to_olap_filter, and the
result of is_empty_value_range (ColumnValueRange internals are not among the
given sources, so they stay abstract behind these two observations). -/
structure ColumnRangeView where
  filters : List TCondition
  isEmptyValueRange : Bool
deriving DecidableEq

/-- Embedding of ChunkPredicateBuilder build_olap_filters (olap_scan_prepare.cpp
lines 711-729): iterate the per-column ranges in order; for each, collect its
olap filters, but if the range has collapsed to an empty value range return the
Status EndOfFile signal immediately (the error result of parse_conjuncts, so
nothing of this pass is handed onward); otherwise append the filters. -/
def build_olap_filters : List ColumnRangeView → Except Status (List TCondition)
  | [] => .ok []
  | r :: rest =>
    if r.isEmptyValueRange then
      .error .endOfFile
    else
      match build_olap_filters rest with
      | .ok fs => .ok (r.filters ++ fs)
      | .error e => .error e

/-- Modelled from the spec: OlapScanRange (olap_utils.h, not among the given
sources).  Its default constructor builds the unbounded full-range scan key
range; here a range is observed through the key bounds it carries, and the
default has no bounds on either side. -/
structure OlapScanRange where
  beginKey : List Int
  endKey : List Int
  beginInclude : Bool
  endInclude : Bool
deriving DecidableEq

/-- Default-constructed OlapScanRange: no begin key, no end key, both sides
inclusive — the unbounded full scan. -/
def defaultOlapScanRange : OlapScanRange := ⟨[], [], true, true⟩

/-- Embedding of ChunkPredicateBuilder get_key_ranges (olap_scan_prepare.cpp
lines 822-830): the scan key extender's output is taken as given (OlapScanKeys
is not among the given sources); if it is empty, exactly one default
(unbounded) range is substituted. -/
def get_key_ranges (extenderOutput : List OlapScanRange) : List OlapScanRange :=
  if extenderOutput.isEmpty then [defaultOlapScanRange] else extenderOutput

/-- Embedding of ChunkPredicateBuilder is_pred_normalized (olap_scan_prepare.cpp
lines 832-835): an index at or past the end of the normalized-flag array
(which is sized at builder construction) reports not-normalized; the
short-circuit bound check keeps the access in bounds (here the total getD). -/
def is_pred_normalized (flags : List Bool) (index : Nat) : Bool :=
  decide (index < flags.length) && flags.getD index false

/-- Embedding of OlapScanConjunctsManager get_not_push_down_conjuncts
(olap_scan_prepare.cpp lines 919-927), by conjunct position: the residual list
holds exactly the positions of the current conjunct list (which may have grown
past the flag array) whose is_pred_normalized is false. -/
def get_not_push_down_idx (numPreds : Nat) (flags : List Bool) : List Nat :=
  (List.range numPreds).filter (fun i => !(is_pred_normalized flags i))

/-- State of the DynamicChunkBufferLimiter admission counter
(chunk_buffer_limiter.cpp): the pinned-chunks counter together with the sizes
of the outstanding tokens (each successful pin hands out a Token that unpins
the same count on destruction). -/
structure LimiterState where
  counter : Int
  live : List Int
deriving DecidableEq

/-- Embedding of DynamicChunkBufferLimiter pin (chunk_buffer_limiter.cpp lines
28-35): fetch_add the requested count; if the previous value plus the count
exceeds the capacity, undo the increment via unpin and return no token (the
Bool component is false); otherwise a token of that count is handed out. -/
def pin (capacity : Int) (s : LimiterState) (numChunks : Int) : LimiterState × Bool :=
  let prev := s.counter
  if prev + numChunks > capacity then
    ({ s with counter := prev + numChunks - numChunks }, false)
  else
    (⟨prev + numChunks, numChunks :: s.live⟩, true)

/-- Embedding of the Token destructor releasing its count through
DynamicChunkBufferLimiter unpin (chunk_buffer_limiter.cpp lines 37-40):
fetch_sub the token's count and drop the token. -/
def release (s : LimiterState) (i : Nat) : LimiterState :=
  ⟨s.counter - s.live.getD i 0, s.live.eraseIdx i⟩

/-- Assertion guarding unpin: DCHECK_GE(prev_value, 1), i.e. the counter read
by fetch_sub was at least one. -/
def releaseAssertion (s : LimiterState) : Prop := 1 ≤ s.counter

/-- Protocol invariant of the limiter: the counter equals the sum of the
outstanding token sizes, and every outstanding token pinned at least one
chunk. -/
def LimiterInv (s : LimiterState) : Prop :=
  s.counter = s.live.foldr (· + ·) 0 ∧ ∀ t ∈ s.live, 1 ≤ t

/-- Instance of VectorizedInConstPredicate as inspected by
normalize_join_runtime_filter: whether the left child is a matching slot
reference (slot ref of the right type with the slot id of the column under
normalization), the is_join_runtime_filter tag, the is_not_in tag, the
null_in_set tag, and the hash set of values. -/
structure InConstPred where
  slotMatch : Bool
  joinRuntimeFilter : Bool
  notIn : Bool
  nullInSet : Bool
  values : List Int
deriving DecidableEq

/-- One conjunct as seen by the IN-list loop of normalize_join_runtime_filter:
either a FILTER_IN expression (with its VectorizedInConstPredicate view) or
any other expression shape. -/
inductive ConjunctView where
  | inPred (p : InConstPred) : ConjunctView
  | other : ConjunctView
deriving DecidableEq

/-- Minimal view of a ColumnValueRange as touched by
normalize_join_runtime_filter: an abstract content (the fixed-value set /
bounds, whose algebra lives outside the given sources), the is_init_state
observation, and the index-filter-only marker. -/
structure CVRange (α : Type) where
  content : α
  initState : Bool
  indexFilterOnly : Bool

/-- Embedding of one iteration of the IN-list loop of
normalize_join_runtime_filter (olap_scan_prepare.cpp lines 481-515) on one
conjunct: a FILTER_IN conjunct whose left child matches the slot and which is
tagged as a join runtime filter is marked normalized immediately; only then
are the NOT-IN / NULL-member / cardinality-cap conditions consulted, and in
those cases the range is left untouched; otherwise add_fixed_values (abstract,
first parameter) folds the value set in.  Conjuncts already normalized, or of
any other shape, change nothing. -/
def join_rf_in_step {α : Type} (add : CVRange α → List Int → CVRange α) (cap : Nat)
    (c : ConjunctView) (flag : Bool) (range : CVRange α) : Bool × CVRange α :=
  if flag then (flag, range)
  else
    match c with
    | .other => (false, range)
    | .inPred p =>
      if !p.slotMatch then (false, range)
      else if !p.joinRuntimeFilter then (false, range)
      else if p.notIn || p.nullInSet || decide (p.values.length > cap) then (true, range)
      else (true, add range p.values)

/-- Embedding of the whole IN-list loop of normalize_join_runtime_filter: the
conjunct list is walked in order, paired with the incoming normalized flags,
threading the range through the per-conjunct steps. -/
def join_rf_in_loop {α : Type} (add : CVRange α → List Int → CVRange α) (cap : Nat) :
    List (ConjunctView × Bool) → CVRange α → List Bool × CVRange α
  | [], range => ([], range)
  | (c, f) :: rest, range =>
    let step := join_rf_in_step add cap c f range
    let tail := join_rf_in_loop add cap rest step.2
    (step.1 :: tail.1, tail.2)

/-- View of a published JoinRuntimeFilter as consulted by the bloom/min-max
loop: the has_null observation and its min/max bounds. -/
structure JoinRuntimeFilter where
  hasNull : Bool
  minValue : Int
  maxValue : Int
deriving DecidableEq

/-- One RuntimeFilterProbeDescriptor as consulted by the bloom/min-max loop:
whether its probe expression is a slot reference whose slot id matches the
column under normalization, and the published filter (none when the build side
has not yet published it). -/
structure RuntimeFilterProbeDescriptor where
  probeSlotMatch : Bool
  filterValue : Option JoinRuntimeFilter
deriving DecidableEq

/-- Embedding of one iteration of the bloom/min-max loop of
normalize_join_runtime_filter (olap_scan_prepare.cpp lines 517-562) on one
descriptor: a descriptor whose probe slot does not match is skipped; an
unpublished filter is recorded in the unarrived list, the range untouched; a
published filter with has_null contributes nothing at all; otherwise, when the
range is still in its init state it is marked index-filter-only, and the
min/max intersection routine (abstract, first parameter, standing for
build_minmax_range which is not among the given sources) is applied. -/
def join_rf_minmax_step {α : Type} (intersectMinMax : CVRange α → JoinRuntimeFilter → CVRange α)
    (d : RuntimeFilterProbeDescriptor) (range : CVRange α)
    (unarrived : List RuntimeFilterProbeDescriptor) :
    CVRange α × List RuntimeFilterProbeDescriptor :=
  if !d.probeSlotMatch then (range, unarrived)
  else
    match d.filterValue with
    | none => (range, unarrived ++ [d])
    | some f =>
      if f.hasNull then (range, unarrived)
      else
        let r1 := if range.initState then { range with indexFilterOnly := true } else range
        (intersectMinMax r1 f, unarrived)

/-- Conjunct expression tree as decomposed by ChunkPredicateBuilder: a leaf
predicate or a compound AND/OR node over children.  The leaf-level
normalization passes are abstracted into two Boolean outcomes carried by the
node: staticNorm tells whether the static passes run by normalize_expressions
(steps 1-4, which only ever fire on non-compound shapes) would mark the
conjunct normalized in a builder that runs them, and colNorm tells whether
build_column_expr_predicates (a single-slot column expression push) would mark
it in a builder with enable_column_expr_predicate set.  Compound nodes can
only be pre-marked by the latter. -/
inductive PlanExpr where
  | leaf (staticNorm colNorm : Bool) : PlanExpr
  | compound (isOr : Bool) (colNorm : Bool) (children : List PlanExpr) : PlanExpr

/-- Outcome of the leaf-level passes of parse_conjuncts on one conjunct of a
builder: normalize_expressions runs only when partial normalization is allowed
(lenient builders, i.e. the root), and build_column_expr_predicates runs only
when enable_column_expr_predicate is set (colExpr). -/
def pre_normalized (colExpr lenient : Bool) : PlanExpr → Bool
  | .leaf s c => (lenient && s) || (colExpr && c)
  | .compound _ c _ => colExpr && c

/-- Result of parse_conjuncts on one builder: the final normalized-flag array
(positionally aligned to the conjunct list), the child builders retained in
child_builders (identified by their root subtrees), and the returned Boolean
(whether the entire list normalized). -/
structure ParseResult where
  flags : List Bool
  kept : List PlanExpr
  ok : Bool

mutual

/-- Embedding of ChunkPredicateBuilder parse_conjuncts (olap_scan_prepare.cpp
lines 226-240): the leaf-level passes mark what they can (abstracted by
pre_normalized, folded into the loop below, which is equivalent since each
conjunct is processed independently), then normalize_and_or_predicates walks
the remaining conjuncts. -/
def parse_conjuncts (colExpr lenient : Bool) (exprs : List PlanExpr) : ParseResult :=
  normalize_and_or_predicates colExpr lenient exprs

/-- Embedding of ChunkPredicateBuilder normalize_and_or_predicates
(olap_scan_prepare.cpp lines 265-281): walk the conjuncts in order, skipping
the ones already normalized; recurse into compound conjuncts; on a conjunct
that does not normalize, return false immediately when partial normalization
is forbidden (the remaining flags keep their leaf-pass values), otherwise
record the failure and continue. -/
def normalize_and_or_predicates (colExpr lenient : Bool) : List PlanExpr → ParseResult
  | [] => ⟨[], [], true⟩
  | e :: rest =>
    if pre_normalized colExpr lenient e then
      let r := normalize_and_or_predicates colExpr lenient rest
      ⟨true :: r.flags, r.kept, r.ok⟩
    else
      let n := normalize_and_or_predicate colExpr e
      if n.1 then
        let r := normalize_and_or_predicates colExpr lenient rest
        ⟨true :: r.flags, n.2.toList ++ r.kept, r.ok⟩
      else if lenient then
        let r := normalize_and_or_predicates colExpr lenient rest
        ⟨false :: r.flags, r.kept, r.ok⟩
      else
        ⟨false :: rest.map (pre_normalized colExpr lenient), [], false⟩

/-- Embedding of ChunkPredicateBuilder normalize_and_or_predicate
(olap_scan_prepare.cpp lines 242-263): a compound OR or AND conjunct spawns a
child builder over its children with partial normalization forbidden; the
child is retained in child_builders only when its whole conjunct list
normalized.  Any other conjunct shape reports not normalized. -/
def normalize_and_or_predicate (colExpr : Bool) : PlanExpr → Bool × Option PlanExpr
  | .leaf _ _ => (false, none)
  | .compound isOr c children =>
    let r := parse_conjuncts colExpr false children
    (r.ok, if r.ok then some (.compound isOr c children) else none)

end

/-- C2: for a binary comparison on a DATE slot against a DATETIME constant
whose truncation to a date is lossy (nonzero time component), the extracted
operator is rewritten exactly as: larger-or-equal becomes larger, less becomes
less-or-equal, larger and less-or-equal are kept with the time dropped, the
IN/equality form signals end-of-data, and the NOT-IN form fails extraction and
is left residual with an untouched status. -/
theorem date_rewrite_lossy_cases (ts : TimestampValue) (h : ts.timeOfDay ≠ 0) :
    rewrite_date_predicate .FILTER_LARGER_OR_EQUAL ts = .extracted .FILTER_LARGER ts.date ∧
    rewrite_date_predicate .FILTER_LESS ts = .extracted .FILTER_LESS_OR_EQUAL ts.date ∧
    rewrite_date_predicate .FILTER_LARGER ts = .extracted .FILTER_LARGER ts.date ∧
    rewrite_date_predicate .FILTER_LESS_OR_EQUAL ts = .extracted .FILTER_LESS_OR_EQUAL ts.date ∧
    rewrite_date_predicate .FILTER_IN ts = .residual .endOfFile ∧
    rewrite_date_predicate .FILTER_NOT_IN ts = .residual .ok := by
  cases ts with
  | mk d m =>
    simp only [ne_eq] at h
    have hcond : implicit_cast_to_timestamp d ≠ (⟨d, m⟩ : TimestampValue) := by
      simp only [implicit_cast_to_timestamp, ne_eq, TimestampValue.mk.injEq, true_and]
      exact fun hh => h hh.symm
    refine ⟨?_, ?_, ?_, ?_, ?_, ?_⟩ <;>
      simp [rewrite_date_predicate, hcond, implicit_cast_to_date]

/-- Witness for date_rewrite_lossy_cases at the timestamp 2020-01-01 01:00:00
(Julian day 2458850, time of day 3600000 ms). -/
theorem date_rewrite_lossy_cases_witness :
    (⟨2458850, 3600000⟩ : TimestampValue).timeOfDay ≠ 0 ∧
    (rewrite_date_predicate .FILTER_LARGER_OR_EQUAL ⟨2458850, 3600000⟩ =
        .extracted .FILTER_LARGER 2458850 ∧
      rewrite_date_predicate .FILTER_LESS ⟨2458850, 3600000⟩ =
        .extracted .FILTER_LESS_OR_EQUAL 2458850 ∧
      rewrite_date_predicate .FILTER_LARGER ⟨2458850, 3600000⟩ =
        .extracted .FILTER_LARGER 2458850 ∧
      rewrite_date_predicate .FILTER_LESS_OR_EQUAL ⟨2458850, 3600000⟩ =
        .extracted .FILTER_LESS_OR_EQUAL 2458850 ∧
      rewrite_date_predicate .FILTER_IN ⟨2458850, 3600000⟩ = .residual .endOfFile ∧
      rewrite_date_predicate .FILTER_NOT_IN ⟨2458850, 3600000⟩ = .residual .ok) :=
  ⟨by decide, date_rewrite_lossy_cases ⟨2458850, 3600000⟩ (by decide)⟩

/-- C3 counterexample: on a DATE column, the equality predicate against the
DATETIME constant 2020-01-01 01:00:00 (equality maps to the IN filter form) is
NOT rewritten to a strict larger-than comparison on 2020-01-01, contrary to
the claim. -/
theorem date_eq_lossy_counterexample :
    ¬(rewrite_date_predicate (to_olap_filter_type .EQ false) ⟨2458850, 3600000⟩ =
      .extracted .FILTER_LARGER 2458850) := by decide

/-- C3 amended: on a DATE column, equality against the DATETIME constant
2020-01-01 01:00:00 (nonzero time) signals end-of-data (the predicate can
never hold), while the less-or-equal comparison against the same constant is
rewritten to less-or-equal against the date 2020-01-01. -/
theorem date_example_rewrites :
    rewrite_date_predicate (to_olap_filter_type .EQ false) ⟨2458850, 3600000⟩ =
      .residual .endOfFile ∧
    rewrite_date_predicate (to_olap_filter_type .LE false) ⟨2458850, 3600000⟩ =
      .extracted .FILTER_LESS_OR_EQUAL 2458850 := by decide

/-- C4 counterexample: the folded decimal value 500, against a column of
declared precision 2 and a constant operand expression of declared precision
9, is accepted by the source even though it does not lie strictly below the
scale factor of the column's precision — the bound actually enforced is the
operand's precision, not the column's. -/
theorem decimal_overflow_counterexample :
    decimal_predicate_accepted 2 9 true 500 = true ∧
    ¬(-(get_scale_factor 2) < 500 ∧ (500 : Int) < get_scale_factor 2) := by decide

/-- C4 amended: a folded decimal-v3 value is accepted exactly when it lies
strictly between the negated and positive scale factor of the constant
operand expression's declared precision; a value outside that bound is
rejected with the extraction failing as an ordinary residual (status stays
OK), not as an error. -/
theorem decimal_overflow_operand_precision (slotPrecision operandPrecision : Nat) (v : Int) :
    (decimal_predicate_accepted slotPrecision operandPrecision true v = true ↔
      -(get_scale_factor operandPrecision) < v ∧ v < get_scale_factor operandPrecision) ∧
    (¬(-(get_scale_factor operandPrecision) < v ∧ v < get_scale_factor operandPrecision) →
      extract_decimal_value true operandPrecision v = (none, Status.ok)) := by
  constructor
  · simp [decimal_predicate_accepted, check_decimal_overflow]
  · intro hout
    have hband : check_decimal_overflow operandPrecision v = false := by
      simp only [check_decimal_overflow, Bool.and_eq_false_iff, decide_eq_false_iff_not]
      by_cases h1 : -(get_scale_factor operandPrecision) < v
      · exact Or.inr fun h2 => hout ⟨h1, h2⟩
      · exact Or.inl h1
    simp [extract_decimal_value, hband]

/-- Witness for decimal_overflow_operand_precision at slot precision 2,
operand precision 3 and value 5000 (which overflows the operand precision,
hence is rejected with an OK status). -/
theorem decimal_overflow_operand_precision_witness :
    (decimal_predicate_accepted 2 3 true 5000 = true ↔
      -(get_scale_factor 3) < 5000 ∧ (5000 : Int) < get_scale_factor 3) ∧
    extract_decimal_value true 3 5000 = (none, Status.ok) :=
  ⟨(decimal_overflow_operand_precision 2 3 5000).1,
   (decimal_overflow_operand_precision 2 3 5000).2 (by decide)⟩

/-- C5: if any column's final range or fixed-value set is empty,
build_olap_filters returns the explicit end-of-file signal — an error result
carrying no filter list, hence distinct from every ordinary success (in
particular from a success with no pushed filters). -/
theorem empty_range_build_eof (ranges : List ColumnRangeView)
    (h : ∃ r ∈ ranges, r.isEmptyValueRange = true) :
    build_olap_filters ranges = .error .endOfFile ∧
    ∀ fs : List TCondition, build_olap_filters ranges ≠ .ok fs := by
  have main : build_olap_filters ranges = .error .endOfFile := by
    induction ranges with
    | nil => simp at h
    | cons r rest ih =>
      rcases h with ⟨x, hx, hxe⟩
      rcases List.mem_cons.mp hx with hx0 | hxr
      · subst hx0
        simp [build_olap_filters, hxe]
      · by_cases hre : r.isEmptyValueRange
        · simp [build_olap_filters, hre]
        · have := ih ⟨x, hxr, hxe⟩
          simp [build_olap_filters, hre, this]
  exact ⟨main, fun fs hcontra => by rw [main] at hcontra; exact Except.noConfusion hcontra⟩

/-- Witness for empty_range_build_eof on a single column whose range collapsed
to the empty value range. -/
theorem empty_range_build_eof_witness :
    (∃ r ∈ [(⟨[], true⟩ : ColumnRangeView)], r.isEmptyValueRange = true) ∧
    (build_olap_filters [(⟨[], true⟩ : ColumnRangeView)] = .error .endOfFile ∧
      ∀ fs : List TCondition, build_olap_filters [(⟨[], true⟩ : ColumnRangeView)] ≠ .ok fs) :=
  ⟨⟨⟨[], true⟩, by simp, rfl⟩, empty_range_build_eof [⟨[], true⟩] ⟨⟨[], true⟩, by simp, rfl⟩⟩

/-- C6: when the scan key extender produced zero scan key ranges, get_key_ranges
returns exactly the one default (unbounded) scan range, and its output is
never the empty list. -/
theorem empty_key_ranges_get_default :
    get_key_ranges [] = [defaultOlapScanRange] ∧
    ∀ extenderOutput : List OlapScanRange, (get_key_ranges extenderOutput).isEmpty = false := by
  refine ⟨rfl, fun ks => ?_⟩
  cases ks with
  | nil => rfl
  | cons a t => simp [get_key_ranges]

/-- C10: an index at or past the length of the normalized-flag array (as for a
conjunct appended after builder construction) is reported not normalized, and
its position is always part of the residual (not-pushed-down) list. -/
theorem late_conjunct_stays_residual (flags : List Bool) (numPreds i : Nat)
    (hlen : flags.length ≤ i) (hn : i < numPreds) :
    is_pred_normalized flags i = false ∧ i ∈ get_not_push_down_idx numPreds flags := by
  have hnotlt : ¬ i < flags.length := by omega
  have hfalse : is_pred_normalized flags i = false := by
    simp [is_pred_normalized, hnotlt]
  refine ⟨hfalse, ?_⟩
  simp only [get_not_push_down_idx, List.mem_filter, List.mem_range]
  exact ⟨hn, by simp [hfalse]⟩

/-- Witness for late_conjunct_stays_residual: one original conjunct (pushed
down), one conjunct appended later at position 1. -/
theorem late_conjunct_stays_residual_witness :
    ([true] : List Bool).length ≤ 1 ∧ 1 < 2 ∧
    (is_pred_normalized [true] 1 = false ∧ 1 ∈ get_not_push_down_idx 2 [true]) :=
  ⟨by decide, by decide, late_conjunct_stays_residual [true] 2 1 (by decide) (by decide)⟩

/-- Helper: the fold-sum of a list of integers that are all at least one is
nonnegative. -/
lemma foldr_add_nonneg (l : List Int) (h : ∀ t ∈ l, 1 ≤ t) : 0 ≤ l.foldr (· + ·) 0 := by
  induction l with
  | nil => simp
  | cons a t ih =>
    have ha := h a (by simp)
    have ht := ih (fun x hx => h x (by simp [hx]))
    simp only [List.foldr_cons]
    omega

/-- Helper: removing the element at a valid index splits the fold-sum. -/
lemma foldr_add_eraseIdx (l : List Int) (i : Nat) (h : i < l.length) :
    l.foldr (· + ·) 0 = l.getD i 0 + (l.eraseIdx i).foldr (· + ·) 0 := by
  induction l generalizing i with
  | nil => simp at h
  | cons a t ih =>
    cases i with
    | zero => simp
    | succ j =>
      have hj : j < t.length := by simpa using h
      simp only [List.eraseIdx_cons_succ, List.getD_cons_succ, List.foldr_cons]
      rw [ih j hj]
      ring

/-- Helper: every member of a list with an index erased is a member of the
original list. -/
lemma mem_of_mem_eraseIdx {α : Type} {l : List α} {i : Nat} {x : α}
    (h : x ∈ l.eraseIdx i) : x ∈ l := by
  induction l generalizing i with
  | nil => simp [List.eraseIdx] at h
  | cons a t ih =>
    cases i with
    | zero => exact List.mem_cons_of_mem a (by simpa using h)
    | succ j =>
      rcases List.mem_cons.mp (by simpa using h) with h0 | h1
      · simp [h0]
      · exact List.mem_cons_of_mem a (ih h1)

/-- C9: for the chunk-buffer admission counter, under the protocol invariant
(the counter is the sum of the outstanding token sizes, each at least one):
the counter is never negative; a pin that would raise the pinned count above
capacity fails (returns no token) with the counter net-unchanged; a successful
pin raises the counter by exactly the requested count and preserves the
invariant; and releasing any outstanding token satisfies the release assertion
(the counter was positive beforehand), leaves the counter nonnegative and
preserves the invariant. -/
theorem limiter_pin_release_properties (capacity : Int) (s : LimiterState) (n : Int) (i : Nat)
    (hn : 1 ≤ n) (hinv : LimiterInv s) :
    0 ≤ s.counter ∧
    ((pin capacity s n).2 = false → (pin capacity s n).1.counter = s.counter) ∧
    ((pin capacity s n).2 = true →
      (pin capacity s n).1.counter = s.counter + n ∧ LimiterInv (pin capacity s n).1) ∧
    (i < s.live.length →
      releaseAssertion s ∧ 0 ≤ (release s i).counter ∧ LimiterInv (release s i)) := by
  obtain ⟨hsum, hpos⟩ := hinv
  have hnonneg : 0 ≤ s.counter := by rw [hsum]; exact foldr_add_nonneg s.live hpos
  refine ⟨hnonneg, ?_, ?_, ?_⟩
  · intro hfail
    by_cases hcap : s.counter + n > capacity
    · simp only [pin, if_pos hcap]
      omega
    · simp [pin, hcap] at hfail
  · intro hok
    by_cases hcap : s.counter + n > capacity
    · simp [pin, hcap] at hok
    · have hstate : pin capacity s n = (⟨s.counter + n, n :: s.live⟩, true) := by
        simp [pin, hcap]
      rw [hstate]
      refine ⟨rfl, ?_⟩
      constructor
      · show s.counter + n = (n :: s.live).foldr (· + ·) 0
        simp only [List.foldr_cons]
        omega
      · intro t ht
        rcases List.mem_cons.mp ht with h0 | h1
        · omega
        · exact hpos t h1
  · intro hi
    have hget : 1 ≤ s.live.getD i 0 := by
      rw [List.getD_eq_getElem s.live 0 hi]
      exact hpos _ (List.getElem_mem hi)
    have hsplit := foldr_add_eraseIdx s.live i hi
    have herased : 0 ≤ (s.live.eraseIdx i).foldr (· + ·) 0 :=
      foldr_add_nonneg _ (fun x hx => hpos x (mem_of_mem_eraseIdx hx))
    refine ⟨?_, ?_, ?_, ?_⟩
    · show 1 ≤ s.counter
      omega
    · show 0 ≤ s.counter - s.live.getD i 0
      omega
    · show s.counter - s.live.getD i 0 = (s.live.eraseIdx i).foldr (· + ·) 0
      omega
    · exact fun t ht => hpos t (mem_of_mem_eraseIdx ht)

/-- Witness for limiter_pin_release_properties: capacity 10, one outstanding
token of one chunk, a pin of one more chunk, releasing token 0. -/
theorem limiter_pin_release_properties_witness :
    (1 : Int) ≤ 1 ∧ LimiterInv ⟨1, [1]⟩ ∧
    (0 ≤ (⟨1, [1]⟩ : LimiterState).counter ∧
      ((pin 10 ⟨1, [1]⟩ 1).2 = false → (pin 10 ⟨1, [1]⟩ 1).1.counter = (⟨1, [1]⟩ : LimiterState).counter) ∧
      ((pin 10 ⟨1, [1]⟩ 1).2 = true →
        (pin 10 ⟨1, [1]⟩ 1).1.counter = (⟨1, [1]⟩ : LimiterState).counter + 1 ∧
          LimiterInv (pin 10 ⟨1, [1]⟩ 1).1) ∧
      (0 < (⟨1, [1]⟩ : LimiterState).live.length →
        releaseAssertion ⟨1, [1]⟩ ∧ 0 ≤ (release ⟨1, [1]⟩ 0).counter ∧
          LimiterInv (release ⟨1, [1]⟩ 0))) :=
  ⟨by decide, ⟨by decide, by decide⟩,
    limiter_pin_release_properties 10 ⟨1, [1]⟩ 1 0 (by decide) ⟨by decide, by decide⟩⟩

/-- Helper: the IN-list loop of normalize_join_runtime_filter produces one
flag per conjunct. -/
lemma join_rf_in_loop_length {α : Type} (add : CVRange α → List Int → CVRange α) (cap : Nat)
    (l : List (ConjunctView × Bool)) (range : CVRange α) :
    (join_rf_in_loop add cap l range).1.length = l.length := by
  induction l generalizing range with
  | nil => rfl
  | cons cf rest ih => simp [join_rf_in_loop, ih]

/-- Helper: a not-yet-normalized join-runtime-filter IN conjunct matching the
slot comes out of the IN-list loop with its flag set, whatever the incoming
range and the surrounding conjuncts. -/
lemma join_rf_in_loop_flag {α : Type} (add : CVRange α → List Int → CVRange α) (cap : Nat)
    (l : List (ConjunctView × Bool)) (range : CVRange α) (i : Nat) (p : InConstPred)
    (hi : l[i]? = some (.inPred p, false))
    (hslot : p.slotMatch = true) (hrf : p.joinRuntimeFilter = true) :
    (join_rf_in_loop add cap l range).1[i]? = some true := by
  induction l generalizing range i with
  | nil => simp at hi
  | cons cf rest ih =>
    cases i with
    | zero =>
      simp only [List.getElem?_cons_zero, Option.some.injEq] at hi
      subst hi
      by_cases hdeg : (p.notIn || p.nullInSet || decide (p.values.length > cap)) = true
      · simp [join_rf_in_loop, join_rf_in_step, hslot, hrf, hdeg]
      · simp [join_rf_in_loop, join_rf_in_step, hslot, hrf, hdeg]
    | succ j =>
      obtain ⟨c, f⟩ := cf
      simp only [List.getElem?_cons_succ] at hi
      simp only [join_rf_in_loop, List.getElem?_cons_succ]
      exact ih _ j hi

/-- C7: an IN-list conjunct tagged as a join runtime filter and matching the
column's slot is marked normalized by the IN-list loop of
normalize_join_runtime_filter; when it is a NOT-IN, carries a NULL member or
exceeds the per-column cardinality cap, its own step leaves the range
untouched (it contributes nothing); and its position never appears in the
residual (not-pushed-down) list computed from the resulting flags. -/
theorem join_rf_marked_never_residual {α : Type} (add : CVRange α → List Int → CVRange α)
    (cap : Nat) (l : List (ConjunctView × Bool)) (i : Nat) (p : InConstPred)
    (range : CVRange α)
    (hi : l[i]? = some (.inPred p, false))
    (hslot : p.slotMatch = true) (hrf : p.joinRuntimeFilter = true) :
    (join_rf_in_loop add cap l range).1[i]? = some true ∧
    ((p.notIn || p.nullInSet || decide (p.values.length > cap)) = true →
      join_rf_in_step add cap (.inPred p) false range = (true, range)) ∧
    i ∉ get_not_push_down_idx l.length (join_rf_in_loop add cap l range).1 := by
  have hflag := join_rf_in_loop_flag add cap l range i p hi hslot hrf
  have hlen := join_rf_in_loop_length add cap l range
  have hlt : i < l.length := by
    by_contra hge
    rw [List.getElem?_eq_none (by omega)] at hi
    exact Option.noConfusion hi
  refine ⟨hflag, ?_, ?_⟩
  · intro hdeg
    simp [join_rf_in_step, hslot, hrf, hdeg]
  · intro hmem
    have hnorm : is_pred_normalized (join_rf_in_loop add cap l range).1 i = true := by
      have hgetd : (join_rf_in_loop add cap l range).1.getD i false = true := by
        rw [List.getD_eq_getElem?_getD, hflag]
        rfl
      have hlt2 : i < (join_rf_in_loop add cap l range).1.length := by omega
      simp only [is_pred_normalized]
      rw [hgetd]
      simp [hlt2]
    simp only [get_not_push_down_idx, List.mem_filter, List.mem_range] at hmem
    rw [hnorm] at hmem
    simp at hmem

/-- Witness for join_rf_marked_never_residual: a single NOT-IN-tagged join
runtime filter conjunct, cap 10, on a trivial range. -/
theorem join_rf_marked_never_residual_witness :
    ([(ConjunctView.inPred ⟨true, true, true, false, []⟩, false)][0]? =
      some (ConjunctView.inPred ⟨true, true, true, false, []⟩, false)) ∧
    (⟨true, true, true, false, []⟩ : InConstPred).slotMatch = true ∧
    (⟨true, true, true, false, []⟩ : InConstPred).joinRuntimeFilter = true ∧
    ((join_rf_in_loop (fun r _ => r) 10
        [(ConjunctView.inPred ⟨true, true, true, false, []⟩, false)]
        (⟨0, true, false⟩ : CVRange Int)).1[0]? = some true ∧
      (((⟨true, true, true, false, []⟩ : InConstPred).notIn ||
          (⟨true, true, true, false, []⟩ : InConstPred).nullInSet ||
          decide ((⟨true, true, true, false, []⟩ : InConstPred).values.length > 10)) = true →
        join_rf_in_step (fun r _ => r) 10 (.inPred ⟨true, true, true, false, []⟩) false
            (⟨0, true, false⟩ : CVRange Int) =
          (true, (⟨0, true, false⟩ : CVRange Int))) ∧
      0 ∉ get_not_push_down_idx
        [(ConjunctView.inPred ⟨true, true, true, false, []⟩, false)].length
        (join_rf_in_loop (fun r _ => r) 10
          [(ConjunctView.inPred ⟨true, true, true, false, []⟩, false)]
          (⟨0, true, false⟩ : CVRange Int)).1) :=
  ⟨rfl, rfl, rfl,
    join_rf_marked_never_residual (fun r _ => r) 10
      [(ConjunctView.inPred ⟨true, true, true, false, []⟩, false)] 0
      ⟨true, true, true, false, []⟩ ⟨0, true, false⟩ rfl rfl rfl⟩

/-- C8: in the bloom/min-max loop of normalize_join_runtime_filter, for a
descriptor matching the column's probe slot: a published filter whose domain
contains NULL leaves the whole range untouched (no min/max intersection, no
index-filter-only marking), whatever the intersection routine would do; and an
unpublished filter is recorded in the unarrived list with the range likewise
untouched. -/
theorem rf_has_null_never_tightens {α : Type}
    (intersectMinMax : CVRange α → JoinRuntimeFilter → CVRange α)
    (d : RuntimeFilterProbeDescriptor) (range : CVRange α)
    (unarrived : List RuntimeFilterProbeDescriptor)
    (hmatch : d.probeSlotMatch = true) :
    (∀ f : JoinRuntimeFilter, d.filterValue = some f → f.hasNull = true →
      join_rf_minmax_step intersectMinMax d range unarrived = (range, unarrived)) ∧
    (d.filterValue = none →
      join_rf_minmax_step intersectMinMax d range unarrived = (range, unarrived ++ [d])) := by
  constructor
  · intro f hf hnull
    simp [join_rf_minmax_step, hmatch, hf, hnull]
  · intro hf
    simp [join_rf_minmax_step, hmatch, hf]

/-- Witness for rf_has_null_never_tightens: a matching descriptor carrying a
published NULL-bearing filter with valid bounds 0..5, on a trivial range. -/
theorem rf_has_null_never_tightens_witness :
    (⟨true, some ⟨true, 0, 5⟩⟩ : RuntimeFilterProbeDescriptor).probeSlotMatch = true ∧
    ((∀ f : JoinRuntimeFilter,
        (⟨true, some ⟨true, 0, 5⟩⟩ : RuntimeFilterProbeDescriptor).filterValue = some f →
        f.hasNull = true →
        join_rf_minmax_step (fun r _ => r) ⟨true, some ⟨true, 0, 5⟩⟩
            (⟨0, true, false⟩ : CVRange Int) [] =
          ((⟨0, true, false⟩ : CVRange Int), [])) ∧
      ((⟨true, some ⟨true, 0, 5⟩⟩ : RuntimeFilterProbeDescriptor).filterValue = none →
        join_rf_minmax_step (fun r _ => r) ⟨true, some ⟨true, 0, 5⟩⟩
            (⟨0, true, false⟩ : CVRange Int) [] =
          ((⟨0, true, false⟩ : CVRange Int), [] ++ [⟨true, some ⟨true, 0, 5⟩⟩]))) :=
  ⟨rfl, rf_has_null_never_tightens (fun r _ => r) ⟨true, some ⟨true, 0, 5⟩⟩
    ⟨0, true, false⟩ [] rfl⟩

/-- Helper: parse_conjuncts is the conjunct walk (its leaf-level passes are
folded into the walk). -/
lemma parse_conjuncts_eq (c len : Bool) (l : List PlanExpr) :
    parse_conjuncts c len l = normalize_and_or_predicates c len l := by
  simp only [parse_conjuncts]

/-- Helper: the conjunct walk produces one flag per conjunct. -/
lemma and_or_flags_length (c len : Bool) (l : List PlanExpr) :
    (normalize_and_or_predicates c len l).flags.length = l.length := by
  induction l with
  | nil => simp [normalize_and_or_predicates]
  | cons e t ih =>
    cases hp : pre_normalized c len e with
    | true => simp [normalize_and_or_predicates, hp, ih]
    | false =>
      cases hn : (normalize_and_or_predicate c e).1 with
      | true => simp [normalize_and_or_predicates, hp, hn, ih]
      | false =>
        cases len with
        | true => simp [normalize_and_or_predicates, hp, hn, ih]
        | false => simp [normalize_and_or_predicates, hp, hn]

/-- Helper: in the lenient (root) mode the conjunct walk processes each
conjunct independently, so it distributes over list append. -/
lemma and_or_append (c : Bool) (l1 l2 : List PlanExpr) :
    normalize_and_or_predicates c true (l1 ++ l2) =
      ⟨(normalize_and_or_predicates c true l1).flags ++ (normalize_and_or_predicates c true l2).flags,
       (normalize_and_or_predicates c true l1).kept ++ (normalize_and_or_predicates c true l2).kept,
       (normalize_and_or_predicates c true l2).ok⟩ := by
  induction l1 with
  | nil => simp [normalize_and_or_predicates]
  | cons e t ih =>
    cases hp : pre_normalized c true e with
    | true => simp [normalize_and_or_predicates, hp, ih]
    | false =>
      cases hn : (normalize_and_or_predicate c e).1 with
      | true => simp [normalize_and_or_predicates, hp, hn, ih]
      | false => simp [normalize_and_or_predicates, hp, hn, ih]

/-- Helper: in the strict (child builder) mode, parse_conjuncts reports true
exactly when every conjunct came out normalized. -/
lemma strict_ok_iff_no_failure (c : Bool) (l : List PlanExpr) :
    (normalize_and_or_predicates c false l).ok = true ↔
      false ∉ (normalize_and_or_predicates c false l).flags := by
  induction l with
  | nil => simp [normalize_and_or_predicates]
  | cons e t ih =>
    cases hp : pre_normalized c false e with
    | true => simpa [normalize_and_or_predicates, hp] using ih
    | false =>
      cases hn : (normalize_and_or_predicate c e).1 with
      | true => simpa [normalize_and_or_predicates, hp, hn] using ih
      | false => simp [normalize_and_or_predicates, hp, hn]

/-- C1: all-or-nothing pushdown for a nested OR (or nested AND) subtree: when
the child builder spawned for a compound conjunct reports failure (equivalent
to some member of the subtree ending up not normalized), the parent — here the
lenient root builder, with arbitrary conjuncts around the compound one —
records the conjunct as not normalized, retains nothing of the subtree among
its child builders (its kept list is exactly that of the surrounding
conjuncts), and the conjunct's position lands in the residual list. -/
theorem or_pushdown_all_or_nothing (colExpr isOr pce : Bool)
    (children bs as : List PlanExpr)
    (hpre : pre_normalized colExpr true (.compound isOr pce children) = false)
    (hfail : (parse_conjuncts colExpr false children).ok = false) :
    false ∈ (parse_conjuncts colExpr false children).flags ∧
    (parse_conjuncts colExpr true (bs ++ .compound isOr pce children :: as)).flags[bs.length]? =
      some false ∧
    (parse_conjuncts colExpr true (bs ++ .compound isOr pce children :: as)).kept =
      (parse_conjuncts colExpr true bs).kept ++ (parse_conjuncts colExpr true as).kept ∧
    bs.length ∈ get_not_push_down_idx (bs.length + 1 + as.length)
      (parse_conjuncts colExpr true (bs ++ .compound isOr pce children :: as)).flags := by
  rw [parse_conjuncts_eq] at hfail
  have hmem : false ∈ (normalize_and_or_predicates colExpr false children).flags := by
    by_contra hno
    rw [(strict_ok_iff_no_failure colExpr children).mpr hno] at hfail
    exact Bool.noConfusion hfail
  have hn1 : (normalize_and_or_predicate colExpr (.compound isOr pce children)).1 = false := by
    simp only [normalize_and_or_predicate, parse_conjuncts_eq]
    exact hfail
  have hsingle : normalize_and_or_predicates colExpr true [PlanExpr.compound isOr pce children] =
      ⟨[false], [], true⟩ := by
    simp [normalize_and_or_predicates, hpre, hn1]
  have hdecomp : normalize_and_or_predicates colExpr true
      (bs ++ PlanExpr.compound isOr pce children :: as) =
      ⟨(normalize_and_or_predicates colExpr true bs).flags ++
          false :: (normalize_and_or_predicates colExpr true as).flags,
        (normalize_and_or_predicates colExpr true bs).kept ++
          (normalize_and_or_predicates colExpr true as).kept,
        (normalize_and_or_predicates colExpr true as).ok⟩ := by
    have h2 := and_or_append colExpr [PlanExpr.compound isOr pce children] as
    rw [hsingle] at h2
    simp only [List.singleton_append] at h2
    have h1 := and_or_append colExpr bs (PlanExpr.compound isOr pce children :: as)
    rw [h2] at h1
    simpa using h1
  have hlenb : (normalize_and_or_predicates colExpr true bs).flags.length = bs.length :=
    and_or_flags_length colExpr true bs
  have hlena : (normalize_and_or_predicates colExpr true as).flags.length = as.length :=
    and_or_flags_length colExpr true as
  have hidx : (normalize_and_or_predicates colExpr true
      (bs ++ PlanExpr.compound isOr pce children :: as)).flags[bs.length]? = some false := by
    rw [hdecomp]
    show ((normalize_and_or_predicates colExpr true bs).flags ++
        false :: (normalize_and_or_predicates colExpr true as).flags)[bs.length]? = some false
    rw [List.getElem?_append_right (le_of_eq hlenb), hlenb]
    simp
  have htot : (normalize_and_or_predicates colExpr true
      (bs ++ PlanExpr.compound isOr pce children :: as)).flags.length =
      bs.length + 1 + as.length := by
    rw [hdecomp]
    show ((normalize_and_or_predicates colExpr true bs).flags ++
        false :: (normalize_and_or_predicates colExpr true as).flags).length =
      bs.length + 1 + as.length
    simp [hlenb, hlena]
    omega
  refine ⟨by rw [parse_conjuncts_eq]; exact hmem, ?_, ?_, ?_⟩
  · rw [parse_conjuncts_eq]
    exact hidx
  · simp only [parse_conjuncts_eq]
    rw [hdecomp]
  · simp only [parse_conjuncts_eq]
    have hgetd : (normalize_and_or_predicates colExpr true
        (bs ++ PlanExpr.compound isOr pce children :: as)).flags.getD bs.length false = false := by
      rw [List.getD_eq_getElem?_getD, hidx]
      rfl
    have hnorm : is_pred_normalized (normalize_and_or_predicates colExpr true
        (bs ++ PlanExpr.compound isOr pce children :: as)).flags bs.length = false := by
      simp only [is_pred_normalized]
      rw [hgetd]
      simp
    simp only [get_not_push_down_idx, List.mem_filter, List.mem_range]
    exact ⟨by omega, by simp [hnorm]⟩

/-- Witness for or_pushdown_all_or_nothing: a three-branch OR conjunct, alone
in the root builder's conjunct list, whose first two branches normalize as
column expression predicates and whose third branch cannot normalize at all. -/
theorem or_pushdown_all_or_nothing_witness :
    pre_normalized true true
      (.compound true false [.leaf false true, .leaf false true, .leaf false false]) = false ∧
    (parse_conjuncts true false
      [PlanExpr.leaf false true, .leaf false true, .leaf false false]).ok = false ∧
    (false ∈ (parse_conjuncts true false
        [PlanExpr.leaf false true, .leaf false true, .leaf false false]).flags ∧
      (parse_conjuncts true true
        ([] ++ PlanExpr.compound true false
          [.leaf false true, .leaf false true, .leaf false false] :: [])).flags[
            ([] : List PlanExpr).length]? = some false ∧
      (parse_conjuncts true true
        ([] ++ PlanExpr.compound true false
          [.leaf false true, .leaf false true, .leaf false false] :: [])).kept =
        (parse_conjuncts true true []).kept ++ (parse_conjuncts true true []).kept ∧
      ([] : List PlanExpr).length ∈ get_not_push_down_idx
        (([] : List PlanExpr).length + 1 + ([] : List PlanExpr).length)
        (parse_conjuncts true true
          ([] ++ PlanExpr.compound true false
            [.leaf false true, .leaf false true, .leaf false false] :: [])).flags) :=
  ⟨rfl,
   by simp [parse_conjuncts, normalize_and_or_predicates, normalize_and_or_predicate,
     pre_normalized],
   or_pushdown_all_or_nothing true true false
     [.leaf false true, .leaf false true, .leaf false false] [] []
     rfl
     (by simp [parse_conjuncts, normalize_and_or_predicates, normalize_and_or_predicate,
       pre_normalized])⟩

end starrocks








